import Mathlib

/-!
Shallow embedding of `src/app.py`, a Flask service that retrieves
neuroimaging studies by annotation term and by 3D coordinate, and supports
dissociation queries (facet A and provably not facet B).

Strings from the Python/SQL side are modelled as `List Char`; SQL numeric
types as `ℚ`/`Int`; nullable columns as `Option`; fallible store calls as an
`Except` parameter.  Each definition carries a note pointing at the source
lines it embeds.
-/

namespace StudyApp

/-- Python `str.strip()` (lines 66, 174, 175): drop leading and trailing
whitespace. -/
def stripL (s : List Char) : List Char :=
  ((s.dropWhile Char.isWhitespace).reverse.dropWhile Char.isWhitespace).reverse

/-- Python `str.lower()` (restricted to the ASCII range, which is what
`Char.toLower` implements). -/
def lowerL (s : List Char) : List Char := s.map Char.toLower

/-- Python `str.replace(old, new)` specialised to single-character `old` and
`new`, which is the only way the source uses it (lines 67-68, 176-179). -/
def pyReplace (old new : Char) : List Char → List Char
  | [] => []
  | c :: rest => (if c = old then new else c) :: pyReplace old new rest

/-- Term normalization of `get_studies_by_term` (lines 66-68) and
`dissociate_terms` (lines 174-179): strip, lowercase, then produce the
underscore form and the space form. -/
def normalizeTerm (term : List Char) : List Char × List Char :=
  let t := lowerL (stripL term)
  (pyReplace ' ' '_' t, pyReplace '_' ' ' t)

/-- PostgreSQL splitting on the two-character delimiter `__`, as performed by
`split_part(s, '__', n)` (lines 80, 85-86, 192-208): fields between
non-overlapping leftmost occurrences of `__`. -/
def splitUS : List Char → List (List Char)
  | [] => [[]]
  | [c] => [[c]]
  | c₁ :: c₂ :: rest =>
    if c₁ = '_' ∧ c₂ = '_' then
      [] :: splitUS rest
    else
      match splitUS (c₂ :: rest) with
      | [] => [[c₁]]
      | h :: t => (c₁ :: h) :: t

/-- Occurrence test for the delimiter `__` inside a string. -/
def containsUS : List Char → Bool
  | c₁ :: c₂ :: rest => (c₁ = '_' && c₂ = '_') || containsUS (c₂ :: rest)
  | _ => false

/-- PostgreSQL `split_part(lower(term), '__', 2)` (lines 85-86, 192-208): the
second `__`-separated field of the lowercased stored term, the empty string
when there is no second field. -/
def cleanTerm (term : List Char) : List Char :=
  (splitUS (lowerL term)).getD 1 []

/-- Modelled from the spec's words only (C5 comparison target): strip
everything up to and including the last occurrence of `__` in the lowercased
term; when the delimiter is absent, keep the whole lowercased term. -/
def afterLastUS : List Char → Option (List Char)
  | [] => none
  | c :: rest =>
    match afterLastUS rest with
    | some r => some r
    | none =>
      match c, rest with
      | '_', '_' :: r2 => some r2
      | _, _ => none

/-- Modelled from the spec's words only (C5 comparison target): the clean
form the claim describes, built on `afterLastUS`. -/
def specCleanLast (term : List Char) : List Char :=
  let lt := lowerL term
  match afterLastUS lt with
  | some r => r
  | none => lt

/-- PostgreSQL `ILIKE` (lines 86, 193-208): `%` matches any run of
characters, `_` matches exactly one character, any other pattern character
matches itself case-insensitively. -/
def ilikeMatch : List Char → List Char → Bool
  | [], s => s.isEmpty
  | c :: p, s =>
    if c = '%' then s.tails.any (fun t => ilikeMatch p t)
    else if c = '_' then
      match s with
      | [] => false
      | _ :: s' => ilikeMatch p s'
    else
      match s with
      | [] => false
      | c' :: s' => (c.toLower = c'.toLower) && ilikeMatch p s'

/-- Term match condition of the SQL WHERE clauses (lines 85-86 and
192-208): the clean lowercased stored term equals the underscore or the
space candidate, or it matches the pattern `candidate_us` followed by `%`
under `ILIKE`. -/
def termMatchQ (t_us t_sp : List Char) (storedTerm : List Char) : Bool :=
  let ct := cleanTerm storedTerm
  (ct = t_us || ct = t_sp) || ilikeMatch (t_us ++ ['%']) ct

/-- Splitting on a single-character delimiter, as Python `s.split("_")`
does in `parse_coords` (line 258) and `get_studies_by_coordinates`
(line 108). -/
def splitCh (d : Char) : List Char → List (List Char)
  | [] => [[]]
  | c :: rest =>
    if c = d then [] :: splitCh d rest
    else
      match splitCh d rest with
      | [] => [[c]]
      | h :: t => (c :: h) :: t

/-- Value of a non-empty all-digit string, `none` otherwise. -/
def digitsVal (s : List Char) : Option Nat :=
  if s ≠ [] ∧ s.all Char.isDigit then
    some (s.foldl (fun n c => 10 * n + (c.toNat - 48)) 0)
  else none

/-- Python `int(str)` (line 108; also the limit/offset parsing): optional
surrounding whitespace, optional sign, then decimal digits.  Digit-group
underscores never occur here because every parsed token comes from a split
on `_`. -/
def pyInt (s : List Char) : Option Int :=
  match stripL s with
  | '-' :: rest => (digitsVal rest).map (fun n => -(n : Int))
  | '+' :: rest => (digitsVal rest).map (fun n => (n : Int))
  | t => (digitsVal t).map (fun n => (n : Int))

/-- Exponent part of a float literal: optional sign then digits. -/
def expVal (s : List Char) : Option Int :=
  match s with
  | '-' :: rest => (digitsVal rest).map (fun n => -(n : Int))
  | '+' :: rest => (digitsVal rest).map (fun n => (n : Int))
  | t => (digitsVal t).map (fun n => (n : Int))

/-- Mantissa of a float literal: digits, optionally with one decimal point;
`1.`, `.5`, `1.5`, `2` are all accepted, `.` and the empty string are not. -/
def mantVal (s : List Char) : Option ℚ :=
  match splitCh '.' s with
  | [i] => (digitsVal i).map (fun n => (n : ℚ))
  | [i, f] =>
    if i = [] then
      (digitsVal f).map (fun fv => (fv : ℚ) / 10 ^ f.length)
    else if f = [] then
      (digitsVal i).map (fun n => (n : ℚ))
    else do
      let iv ← digitsVal i
      let fv ← digitsVal f
      pure ((iv : ℚ) + (fv : ℚ) / 10 ^ f.length)
  | _ => none

/-- Python `float(str)` (line 258) for finite decimal literals: optional
surrounding whitespace, optional sign, mantissa, optional `e`-exponent.
The model rejects `inf`/`nan`, which denote no real number and never occur
in coordinate strings under test. -/
def pyFloat (s : List Char) : Option ℚ :=
  let body := fun (t : List Char) =>
    match splitCh 'e' t with
    | [m] => mantVal m
    | [m, ex] => do
      let mv ← mantVal m
      let ev ← expVal ex
      pure (mv * (10 : ℚ) ^ ev)
    | _ => none
  match lowerL (stripL s) with
  | '-' :: rest => (body rest).map (fun q => -q)
  | '+' :: rest => body rest
  | t => body t

/-- Coordinate-string parsing of `dissociate_locations.parse_coords`
(lines 256-261): split on `_`, require exactly three float tokens, return
`none` on any failure. -/
def parse_coords (s : List Char) : Option (ℚ × ℚ × ℚ) :=
  match splitCh '_' s with
  | [a, b, c] =>
    match pyFloat a, pyFloat b, pyFloat c with
    | some x, some y, some z => some (x, y, z)
    | _, _, _ => none
  | _ => none

/-- Embedding of `get_studies_by_coordinates` (lines 106-109): split the
path segment on `_`, parse the (exactly three) tokens with `int`, and
return the echo list `[x, y, z]` as the response body.  `none` models the
unhandled `ValueError` that escapes as a generic 500 error. -/
def get_studies_by_coordinates (coords : List Char) : Option (List Int) :=
  match splitCh '_' coords with
  | [a, b, c] =>
    match pyInt a, pyInt b, pyInt c with
    | some x, some y, some z => some [x, y, z]
    | _, _, _ => none
  | _ => none

/-- Spatial match condition built by `dissociate_locations`
(lines 273-284): with `r = 0`, exact component equality
(`ST_X(g)=:x AND ST_Y(g)=:y AND ST_Z(g)=:z`); otherwise
`ST_3DDWithin(g, p, r) OR (ST_DWithin(g, p, r) AND ABS(ST_Z(g)-:z)<=:r)`,
with the `DWithin` predicates rendered by their squared-distance
characterisations (the caller clamps `r` to be nonnegative, line 243). -/
def spatialMatch (ax ay az sx sy sz r : ℚ) : Bool :=
  if r = 0 then
    decide (sx = ax ∧ sy = ay ∧ sz = az)
  else
    decide ((sx - ax) ^ 2 + (sy - ay) ^ 2 + (sz - az) ^ 2 ≤ r ^ 2) ||
      (decide ((sx - ax) ^ 2 + (sy - ay) ^ 2 ≤ r ^ 2) && decide (|sz - az| ≤ r))

/-- Effective row limit (lines 59-63, 162-166, 244-248): parse the `limit`
query argument (missing or unparseable falls back to 50), then clamp into
`[1, 500]`. -/
def effLimit (arg : Option (List Char)) : Int :=
  max 1 (min ((arg.bind pyInt).getD 50) 500)

/-- SQL `LIMIT :limit OFFSET :offset` applied to an ordered row list. -/
def paginate (limit offset : Int) (l : List α) : List α :=
  (l.drop offset.toNat).take limit.toNat

/-- Row of `ns.metadata`. -/
structure MetaRow where
  study_id : Int
  title : List Char
  journal : List Char
  year : Option Int
deriving DecidableEq

/-- Row of `ns.annotations_terms`. -/
structure AnnotRow where
  study_id : Int
  term : List Char
  weight : Option ℚ
deriving DecidableEq

/-- Comparison under `weight DESC NULLS LAST`. -/
def wLEdesc (a b : Option ℚ) : Bool :=
  match a, b with
  | none, none => true
  | none, some _ => false
  | some _, none => true
  | some x, some y => decide (y ≤ x)

/-- Comparison under `year DESC` (PostgreSQL sorts nulls first under
DESC). -/
def yLEdesc (a b : Option Int) : Bool :=
  match a, b with
  | none, _ => true
  | some _, none => false
  | some x, some y => decide (y ≤ x)

/-- Total preorder realising `ORDER BY a.weight DESC NULLS LAST,
m.year DESC, m.study_id` (lines 87, 211). -/
def dissocRowLE (r1 r2 : MetaRow × AnnotRow) : Bool :=
  if wLEdesc r1.2.weight r2.2.weight && !wLEdesc r2.2.weight r1.2.weight then true
  else if wLEdesc r2.2.weight r1.2.weight && !wLEdesc r1.2.weight r2.2.weight then false
  else if yLEdesc r1.1.year r2.1.year && !yLEdesc r2.1.year r1.1.year then true
  else if yLEdesc r2.1.year r1.1.year && !yLEdesc r1.1.year r2.1.year then false
  else decide (r1.1.study_id ≤ r2.1.study_id)

/-- Result rows of the `dissociate_terms` query before ORDER BY/LIMIT
(lines 186-213): join metadata with A-matching annotations, require some
annotation of the study to match A, and no annotation of the study to
match B. -/
def dissocTermRows (metas : List MetaRow) (annots : List AnnotRow)
    (ta_us ta_sp tb_us tb_sp : List Char) : List (MetaRow × AnnotRow) :=
  metas.flatMap (fun m =>
    (annots.filter (fun a =>
      a.study_id == m.study_id
      && termMatchQ ta_us ta_sp a.term
      && annots.any (fun a2 =>
           a2.study_id == m.study_id && termMatchQ ta_us ta_sp a2.term)
      && !annots.any (fun b2 =>
           b2.study_id == m.study_id && termMatchQ tb_us tb_sp b2.term))).map
      (fun a => (m, a)))

/-- Full ordered result of the `dissociate_terms` query, before LIMIT and
OFFSET are applied. -/
def dissocTermSorted (metas : List MetaRow) (annots : List AnnotRow)
    (ta_us ta_sp tb_us tb_sp : List Char) : List (MetaRow × AnnotRow) :=
  (dissocTermRows metas annots ta_us ta_sp tb_us tb_sp).mergeSort dissocRowLE

/-- JSON envelope common to the data endpoints: the `ok` flag, and the
`error`, `count` and `items` fields, each `none` when the corresponding key
is absent from the response object. -/
structure ApiResp (α : Type) where
  ok : Bool
  error : Option (List Char)
  count : Option Nat
  items : Option (List α)
deriving DecidableEq

/-- Response envelope of `get_studies_by_term` (lines 71, 97-104): on store
success, fill `items`/`count` and set `ok`; on store failure the envelope
initialised at line 71 is returned with the error message added. -/
def termStudiesResp (qres : Except (List Char) (List α)) : ApiResp α :=
  match qres with
  | .ok rows => { ok := true, error := none, count := some rows.length, items := some rows }
  | .error e => { ok := false, error := some e, count := some 0, items := some [] }

/-- Response envelope of `dissociate_terms` (lines 182, 224-234), JSON
branch. -/
def dissociateTermsResp (qres : Except (List Char) (List α)) : ApiResp α :=
  match qres with
  | .ok rows => { ok := true, error := none, count := some rows.length, items := some rows }
  | .error e => { ok := false, error := some e, count := some 0, items := some [] }

/-- Validation error message of `dissociate_locations` (line 265). -/
def coordsErrMsg : List Char :=
  "Coordinates must be in x_y_z format (e.g., -22_0_-20)".data

/-- Response envelope of `dissociate_locations` (lines 262-268, 312-322),
JSON branch: a parse failure of either coordinate string returns a 400
object carrying only `ok` and `error` (no `count`, no `items`); otherwise
the store outcome fills the envelope initialised at line 268. -/
def dissociateLocationsResp (ca cb : List Char)
    (qres : Except (List Char) (List α)) : ApiResp α :=
  match parse_coords ca, parse_coords cb with
  | some _, some _ =>
    match qres with
    | .ok rows => { ok := true, error := none, count := some rows.length, items := some rows }
    | .error e => { ok := false, error := some e, count := some 0, items := some [] }
  | _, _ => { ok := false, error := some coordsErrMsg, count := none, items := none }

/-- Helper of `specNormUS`: collapse maximal whitespace runs into single
underscores, tracking whether the previous character was whitespace. -/
def specUSAux (prevWS : Bool) : List Char → List Char
  | [] => []
  | c :: rest =>
    if c.isWhitespace then
      if prevWS then specUSAux true rest
      else '_' :: specUSAux true rest
    else c :: specUSAux false rest

/-- Modelled from the spec's words only (C9 comparison target): the
underscore candidate as §4.1 describes it, with every whitespace run
replaced by a single underscore after trimming and lowercasing. -/
def specNormUS (term : List Char) : List Char :=
  specUSAux false (lowerL (stripL term))

end StudyApp

namespace StudyApp

/-! Helper lemmas about the embedded string operations. -/

theorem pyReplace_eq_map (old new : Char) (s : List Char) :
    pyReplace old new s = s.map (fun c => if c = old then new else c) := by
  induction s with
  | nil => rfl
  | cons c t ih => simp [pyReplace, ih]

theorem mem_self_tails (s : List Char) : s ∈ s.tails := by
  cases s <;> simp [List.tails]

theorem nil_mem_tails (s : List Char) : ([] : List Char) ∈ s.tails := by
  induction s with
  | nil => simp [List.tails]
  | cons c t ih => simp only [List.tails, List.mem_cons]; exact Or.inr ih

theorem ilikeMatch_pct (p s : List Char) :
    ilikeMatch ('%' :: p) s = s.tails.any (fun t => ilikeMatch p t) := rfl

theorem ilikeMatch_cons_cons (c : Char) (p : List Char) (c' : Char) (s' : List Char) :
    ilikeMatch (c :: p) (c' :: s') =
      if c = '%' then (c' :: s').tails.any (fun t => ilikeMatch p t)
      else if c = '_' then ilikeMatch p s'
      else ((c.toLower = c'.toLower) && ilikeMatch p s') := rfl

theorem ilike_wildcard (s : List Char) : ilikeMatch ['%'] s = true := by
  rw [show (['%'] : List Char) = '%' :: [] from rfl, ilikeMatch_pct, List.any_eq_true]
  exact ⟨[], nil_mem_tails s, rfl⟩

theorem ilike_of_pref (p : List Char) : ∀ s : List Char,
    lowerL p <+: lowerL s → ilikeMatch (p ++ ['%']) s = true := by
  induction p with
  | nil => intro s _; exact ilike_wildcard s
  | cons c p' ih =>
    intro s hpre
    cases s with
    | nil =>
      exact absurd hpre (by simp [lowerL])
    | cons c' s' =>
      simp only [lowerL, List.map_cons, List.cons_prefix_cons] at hpre
      obtain ⟨hc, hrest⟩ := hpre
      show ilikeMatch (c :: (p' ++ ['%'])) (c' :: s') = true
      rw [ilikeMatch_cons_cons]
      by_cases h1 : c = '%'
      · rw [if_pos h1, List.any_eq_true]
        refine ⟨s', ?_, ih s' hrest⟩
        simp only [List.tails, List.mem_cons]
        exact Or.inr (mem_self_tails s')
      · by_cases h2 : c = '_'
        · rw [if_neg h1, if_pos h2]
          exact ih s' hrest
        · rw [if_neg h1, if_neg h2]
          simp only [Bool.and_eq_true, decide_eq_true_eq]
          exact ⟨hc, ih s' hrest⟩

theorem splitUS_cons₂ (c₁ c₂ : Char) (rest : List Char) :
    splitUS (c₁ :: c₂ :: rest) =
      if c₁ = '_' ∧ c₂ = '_' then [] :: splitUS rest
      else
        match splitUS (c₂ :: rest) with
        | [] => [[c₁]]
        | h :: t => (c₁ :: h) :: t := rfl

theorem splitUS_append (pre y : List Char) (hpre : ∀ c ∈ pre, c ≠ '_') :
    splitUS (pre ++ '_' :: '_' :: y) = pre :: splitUS y := by
  induction pre with
  | nil =>
    show splitUS ('_' :: '_' :: y) = [] :: splitUS y
    rw [splitUS_cons₂, if_pos ⟨rfl, rfl⟩]
  | cons c pre' ih =>
    have hc : c ≠ '_' := hpre c (List.mem_cons_self _ _)
    have hpre' : ∀ x ∈ pre', x ≠ '_' := fun x hx => hpre x (List.mem_cons_of_mem _ hx)
    cases pre' with
    | nil =>
      show splitUS (c :: '_' :: '_' :: y) = [c] :: splitUS y
      have hin : splitUS ('_' :: '_' :: y) = [] :: splitUS y := by
        rw [splitUS_cons₂, if_pos ⟨rfl, rfl⟩]
      rw [splitUS_cons₂, if_neg (fun hand => hc hand.1), hin]
    | cons d pre'' =>
      have ihres := ih hpre'
      show splitUS (c :: d :: (pre'' ++ '_' :: '_' :: y)) = (c :: d :: pre'') :: splitUS y
      have hin : splitUS (d :: (pre'' ++ '_' :: '_' :: y)) = (d :: pre'') :: splitUS y := by
        simpa using ihres
      rw [splitUS_cons₂, if_neg (fun hand => hc hand.1), hin]

theorem containsUS_eq_false (s : List Char) (h : ∀ c ∈ s, c ≠ '_') :
    containsUS s = false := by
  induction s with
  | nil => rfl
  | cons c₁ t ih =>
    cases t with
    | nil => rfl
    | cons c₂ rest =>
      have h1 : c₁ ≠ '_' := h c₁ (List.mem_cons_self _ _)
      have hrec := ih (fun x hx => h x (List.mem_cons_of_mem _ hx))
      rw [containsUS]
      simp [h1, hrec]

theorem splitUS_of_not_contains (s : List Char) (h : containsUS s = false) :
    splitUS s = [s] := by
  induction s with
  | nil => rfl
  | cons c₁ t ih =>
    cases t with
    | nil => rfl
    | cons c₂ rest =>
      rw [containsUS] at h
      simp only [Bool.or_eq_false_iff, Bool.and_eq_false_iff,
        decide_eq_false_iff_not] at h
      have h1 : ¬(c₁ = '_' ∧ c₂ = '_') := fun ⟨ha, hb⟩ => by
        rcases h.1 with h' | h' <;> exact h' (by assumption)
      have hrec := ih h.2
      rw [splitUS, if_neg h1, hrec]

theorem pyReplace_us_sp (t : List Char) :
    pyReplace '_' ' ' (pyReplace ' ' '_' t) = pyReplace '_' ' ' t := by
  induction t with
  | nil => rfl
  | cons c r ih =>
    by_cases h : c = ' '
    · subst h; simp [pyReplace, ih]
    · by_cases h2 : c = '_'
      · subst h2; simp [pyReplace, ih]
      · simp [pyReplace, h, h2, ih]

/-! Claim theorems. -/

/-- Claim C1 (code evaluation at the failing input): the location-retrieval
endpoint `GET /locations/0_0_0/studies` returns the echo list `[0, 0, 0]`
of the parsed integers — not a list of studies matching the spatial
predicate ordered by year and study id. -/
theorem c1_location_endpoint_echo :
    get_studies_by_coordinates "0_0_0".data = some [0, 0, 0] := by decide

/-- Claim C4 (code evaluation at the failing input): `parse_coords` accepts
the real-valued triple `1.5_2_3`, but the location-retrieval endpoint
parses with `int` and raises an unhandled error on the same input (and on
`abc`), instead of reporting a typed validation failure. -/
theorem c4_location_endpoint_rejects_floats :
    (parse_coords "1.5_2_3".data).isSome = true ∧
    get_studies_by_coordinates "1.5_2_3".data = none ∧
    get_studies_by_coordinates "abc".data = none := by
  refine ⟨by decide, by decide, by decide⟩

/-- Claim C5 counterexample: the clean form is not the suffix after the
last `__` occurrence (for `ns__alpha__band` the code produces `alpha`, the
claim says `band`), and with the delimiter absent the clean form is empty,
not the whole lowercased term. -/
theorem c5_counterexample :
    cleanTerm "ns__alpha__band".data = "alpha".data ∧
    specCleanLast "ns__alpha__band".data = "band".data ∧
    cleanTerm "ns__alpha__band".data ≠ specCleanLast "ns__alpha__band".data ∧
    cleanTerm "alpha".data = [] ∧
    specCleanLast "alpha".data = "alpha".data ∧
    cleanTerm "alpha".data ≠ specCleanLast "alpha".data := by
  refine ⟨by decide, by decide, by decide, by decide, by decide, by decide⟩

/-- Claim C5 as amended: the clean form used for matching is the second
`__`-separated field of the lowercased stored term — empty when the
delimiter is absent, the text strictly between the first and the second
occurrence when there are two or more. -/
theorem c5_clean_is_second_field :
    (∀ t, containsUS (lowerL t) = false → cleanTerm t = []) ∧
    (∀ t pre mid, '_' ∉ pre → '_' ∉ mid →
      lowerL t = pre ++ '_' :: '_' :: mid → cleanTerm t = mid) ∧
    (∀ t pre mid w, '_' ∉ pre → '_' ∉ mid →
      lowerL t = pre ++ '_' :: '_' :: (mid ++ '_' :: '_' :: w) → cleanTerm t = mid) := by
  refine ⟨?_, ?_, ?_⟩
  · intro t h
    rw [cleanTerm, splitUS_of_not_contains _ h]
    rfl
  · intro t pre mid hpre hmid heq
    have hpre' : ∀ c ∈ pre, c ≠ '_' := fun c hc he => hpre (he ▸ hc)
    have hcmid : containsUS mid = false :=
      containsUS_eq_false mid (fun c hc he => hmid (he ▸ hc))
    rw [cleanTerm, heq, splitUS_append pre mid hpre', splitUS_of_not_contains mid hcmid]
    rfl
  · intro t pre mid w hpre hmid heq
    have hpre' : ∀ c ∈ pre, c ≠ '_' := fun c hc he => hpre (he ▸ hc)
    have hmid' : ∀ c ∈ mid, c ≠ '_' := fun c hc he => hmid (he ▸ hc)
    rw [cleanTerm, heq, splitUS_append pre _ hpre', splitUS_append mid w hmid']
    rfl

/-- Claim C5 witness: the amended statement evaluated at concrete stored
terms. -/
theorem c5_clean_is_second_field_witness :
    cleanTerm "alpha".data = [] ∧ cleanTerm "ns__alpha__x".data = "alpha".data :=
  ⟨c5_clean_is_second_field.1 "alpha".data (by decide),
   c5_clean_is_second_field.2.2 "ns__alpha__x".data "ns".data "alpha".data "x".data
     (by decide) (by decide) (by decide)⟩

/-- Claim C6 counterexample: an empty candidate — exactly what an
all-whitespace query term normalizes to — does prefix-match the non-empty
stored term `ns__emotion`, so the predicate degenerates into a wildcard. -/
theorem c6_counterexample :
    (normalizeTerm "   ".data).1 = [] ∧
    cleanTerm "ns__emotion".data ≠ [] ∧
    ilikeMatch ([] ++ ['%']) (cleanTerm "ns__emotion".data) = true ∧
    termMatchQ [] [] "ns__emotion".data = true := by
  refine ⟨by decide, by decide, by decide, by decide⟩

/-- Claim C6 as amended: with an empty underscore candidate the ILIKE
pattern degenerates to the bare wildcard, which matches every string, so
the term match predicate accepts every stored term; no guard exists. -/
theorem c6_empty_candidate_matches_everything :
    (∀ s : List Char, ilikeMatch ['%'] s = true) ∧
    (∀ t_sp stored : List Char, termMatchQ [] t_sp stored = true) := by
  refine ⟨ilike_wildcard, fun t_sp stored => ?_⟩
  have h := ilike_wildcard (cleanTerm stored)
  simp [termMatchQ, h]

/-- Claim C7 counterexample: a requested limit of 0 is clamped to a 1-row
cap, not to the documented default 50-row cap. -/
theorem c7_counterexample : effLimit (some "0".data) = 1 ∧ (1 : Int) ≠ 50 := by
  refine ⟨by decide, by decide⟩

/-- Claim C7 as amended: the effective limit always lies in `[1, 500]`
(so at most 500 rows are ever returned), an oversized limit is capped at
500, a missing or non-numeric limit falls back to the default 50, but a
limit of 0 is clamped to 1 rather than to the default. -/
theorem c7_limit_clamp :
    (∀ arg, 1 ≤ effLimit arg ∧ effLimit arg ≤ 500) ∧
    effLimit none = 50 ∧
    effLimit (some "10000".data) = 500 ∧
    (∀ bad, pyInt bad = none → effLimit (some bad) = 50) ∧
    effLimit (some "0".data) = 1 ∧
    (∀ (α : Type) (arg : Option (List Char)) (off : Int) (l : List α),
      (paginate (effLimit arg) off l).length ≤ 500) := by
  refine ⟨fun arg => ⟨le_max_left _ _, max_le (by norm_num) (min_le_right _ _)⟩,
    by decide, by decide, fun bad h => ?_, by decide, ?_⟩
  · show max 1 (min (((some bad).bind pyInt).getD 50) 500) = 50
    rw [show (some bad).bind pyInt = pyInt bad from rfl, h]
    decide
  · intro α arg off l
    have h1 : effLimit arg ≤ 500 := max_le (by norm_num) (min_le_right _ _)
    have h2 : (effLimit arg).toNat ≤ 500 := by
      have h3 := Int.toNat_le_toNat h1
      simpa using h3
    calc (paginate (effLimit arg) off l).length
        = min (effLimit arg).toNat (l.drop off.toNat).length := by
          simp [paginate, List.length_take]
      _ ≤ (effLimit arg).toNat := min_le_left _ _
      _ ≤ 500 := h2

/-- Claim C7 witness: a non-numeric limit argument falls back to the
default 50-row cap. -/
theorem c7_limit_clamp_witness :
    pyInt "abc".data = none ∧ effLimit (some "abc".data) = 50 :=
  ⟨by decide, c7_limit_clamp.2.2.2.1 "abc".data (by decide)⟩

/-- Claim C8 counterexample: the stored term `region__alpha_band_power`,
whose clean form strictly extends the query `alpha`, matches even though
the code has no fuzz flag and no exact-only mode that could disable the
ILIKE branch. -/
theorem c8_counterexample :
    termMatchQ "alpha".data "alpha".data "region__alpha_band_power".data = true ∧
    cleanTerm "region__alpha_band_power".data ≠ "alpha".data := by
  refine ⟨by decide, by decide⟩

/-- Claim C8 as amended: prefix matching is unconditional — whenever the
underscore candidate is a literal prefix of the clean stored term the
predicate accepts, with no mode that could restrict matching to exact
equality. -/
theorem c8_prefix_match_unconditional (t_us t_sp stored : List Char)
    (h : t_us.isPrefixOf (cleanTerm stored) = true) :
    termMatchQ t_us t_sp stored = true := by
  have hp : t_us <+: cleanTerm stored := List.isPrefixOf_iff_prefix.mp h
  have hl : lowerL t_us <+: lowerL (cleanTerm stored) := hp.map Char.toLower
  have hi := ilike_of_pref t_us (cleanTerm stored) hl
  simp [termMatchQ, hi]

/-- Claim C8 witness: the amended statement at the spec's own example. -/
theorem c8_prefix_match_unconditional_witness :
    "alpha".data.isPrefixOf (cleanTerm "region__alpha_band_power".data) = true ∧
    termMatchQ "alpha".data "alpha band".data "region__alpha_band_power".data = true :=
  ⟨by decide, c8_prefix_match_unconditional "alpha".data "alpha band".data
    "region__alpha_band_power".data (by decide)⟩

/-- Claim C9 counterexample: a run of two spaces becomes two underscores,
not the single underscore the claim describes. -/
theorem c9_counterexample :
    (normalizeTerm " Alpha  Band ".data).1 = "alpha__band".data ∧
    specNormUS " Alpha  Band ".data = "alpha_band".data ∧
    (normalizeTerm " Alpha  Band ".data).1 ≠ specNormUS " Alpha  Band ".data := by
  refine ⟨by decide, by decide, by decide⟩

/-- Claim C9 as amended: after trimming and lowercasing, the first
candidate replaces every space character (not run) by one underscore and
the second replaces every underscore by one space; the space form is the
underscore form with underscores sent back to spaces, the underscore form
contains no space, the space form contains no underscore, and empty input
yields two empty candidates. -/
theorem c9_normalize_per_char (raw : List Char) :
    (normalizeTerm raw).1 = (lowerL (stripL raw)).map (fun c => if c = ' ' then '_' else c) ∧
    (normalizeTerm raw).2 = (lowerL (stripL raw)).map (fun c => if c = '_' then ' ' else c) ∧
    (normalizeTerm raw).2 = pyReplace '_' ' ' (normalizeTerm raw).1 ∧
    (' ' ∉ (normalizeTerm raw).1) ∧
    ('_' ∉ (normalizeTerm raw).2) ∧
    normalizeTerm [] = ([], []) := by
  refine ⟨?_, ?_, ?_, ?_, ?_, rfl⟩
  · simp [normalizeTerm, pyReplace_eq_map]
  · simp [normalizeTerm, pyReplace_eq_map]
  · exact (pyReplace_us_sp (lowerL (stripL raw))).symm
  · intro hmem
    rw [show (normalizeTerm raw).1 = pyReplace ' ' '_' (lowerL (stripL raw)) from rfl,
      pyReplace_eq_map] at hmem
    simp only [List.mem_map] at hmem
    obtain ⟨x, _, hfx⟩ := hmem
    by_cases h : x = ' '
    · rw [if_pos h] at hfx; exact absurd hfx (by decide)
    · rw [if_neg h] at hfx; exact h hfx
  · intro hmem
    rw [show (normalizeTerm raw).2 = pyReplace '_' ' ' (lowerL (stripL raw)) from rfl,
      pyReplace_eq_map] at hmem
    simp only [List.mem_map] at hmem
    obtain ⟨x, _, hfx⟩ := hmem
    by_cases h : x = '_'
    · rw [if_pos h] at hfx; exact absurd hfx (by decide)
    · rw [if_neg h] at hfx; exact h hfx

/-- Claim C10 counterexample: the malformed-coordinates failure of location
dissociation carries `ok = false` and the error message but no `items`
field at all (in particular not an empty list) and no `count` field. -/
theorem c10_counterexample :
    (dissociateLocationsResp "abc".data "0_0_0".data (Except.ok ([] : List Unit))).ok = false ∧
    (dissociateLocationsResp "abc".data "0_0_0".data (Except.ok ([] : List Unit))).items ≠ some [] ∧
    (dissociateLocationsResp "abc".data "0_0_0".data (Except.ok ([] : List Unit))).count ≠ some 0 := by
  refine ⟨by decide, by decide, by decide⟩

/-- Claim C10 as amended: in every JSON envelope of the three handlers,
whenever `count` and `items` are both present, `count` is the length of
`items`; successes carry `ok = true` with the full row list; store
failures carry `ok = false`, the error message, an empty `items` and
`count = 0`; the malformed-coordinate validation failure of location
dissociation carries only `ok = false` and the error message, with
`items` and `count` absent. -/
theorem c10_envelope (α : Type) (rows : List α) (e ca cb : List Char)
    (qres : Except (List Char) (List α)) :
    termStudiesResp (Except.ok rows) = (⟨true, none, some rows.length, some rows⟩ : ApiResp α) ∧
    termStudiesResp (Except.error e) = (⟨false, some e, some 0, some []⟩ : ApiResp α) ∧
    dissociateTermsResp (Except.ok rows) = (⟨true, none, some rows.length, some rows⟩ : ApiResp α) ∧
    dissociateTermsResp (Except.error e) = (⟨false, some e, some 0, some []⟩ : ApiResp α) ∧
    (parse_coords ca = none →
      dissociateLocationsResp ca cb qres = (⟨false, some coordsErrMsg, none, none⟩ : ApiResp α)) ∧
    (parse_coords cb = none →
      dissociateLocationsResp ca cb qres = (⟨false, some coordsErrMsg, none, none⟩ : ApiResp α)) ∧
    ((parse_coords ca).isSome = true → (parse_coords cb).isSome = true →
      dissociateLocationsResp ca cb (Except.ok rows) =
        (⟨true, none, some rows.length, some rows⟩ : ApiResp α) ∧
      dissociateLocationsResp ca cb (Except.error e) =
        (⟨false, some e, some 0, some []⟩ : ApiResp α)) := by
  refine ⟨rfl, rfl, rfl, rfl, ?_, ?_, ?_⟩
  · intro h
    unfold dissociateLocationsResp
    rw [h]
  · intro h
    unfold dissociateLocationsResp
    rw [h]
    cases hca : parse_coords ca <;> rfl
  · intro h1 h2
    obtain ⟨pa, hpa⟩ := Option.isSome_iff_exists.mp h1
    obtain ⟨pb, hpb⟩ := Option.isSome_iff_exists.mp h2
    unfold dissociateLocationsResp
    rw [hpa, hpb]
    exact ⟨rfl, rfl⟩

/-- Claim C10 witness: the amended envelope statement at concrete inputs,
covering the validation-failure shape and a success shape. -/
theorem c10_envelope_witness :
    parse_coords "abc".data = none ∧
    dissociateLocationsResp "abc".data "0_0_0".data (Except.ok ([] : List Unit)) =
      (⟨false, some coordsErrMsg, none, none⟩ : ApiResp Unit) ∧
    dissociateLocationsResp "0_0_0".data "1_2_3".data (Except.ok [()]) =
      (⟨true, none, some 1, some [()]⟩ : ApiResp Unit) := by
  refine ⟨by decide, ?_, ?_⟩
  · exact (c10_envelope Unit [] [] "abc".data "0_0_0".data
      (Except.ok [])).2.2.2.2.1 (by decide)
  · exact ((c10_envelope Unit [()] [] "0_0_0".data "1_2_3".data
      (Except.ok [()])).2.2.2.2.2.2 (by decide) (by decide)).1

/-- Claim C3: the spatial match predicate of location dissociation tests
exact component equality when the radius is zero, and for a positive
radius accepts exactly when the 3D Euclidean distance is at most `r` or
the planar distance is at most `r` together with a depth difference of at
most `r`. -/
theorem c3_spatial_predicate (ax ay az sx sy sz r : ℚ) :
    (r = 0 → (spatialMatch ax ay az sx sy sz r = true ↔ (sx = ax ∧ sy = ay ∧ sz = az))) ∧
    (0 < r → (spatialMatch ax ay az sx sy sz r = true ↔
      (Real.sqrt (((sx : ℝ) - ax) ^ 2 + ((sy : ℝ) - ay) ^ 2 + ((sz : ℝ) - az) ^ 2) ≤ (r : ℝ) ∨
       (Real.sqrt (((sx : ℝ) - ax) ^ 2 + ((sy : ℝ) - ay) ^ 2) ≤ (r : ℝ) ∧
        |(sz : ℝ) - az| ≤ (r : ℝ))))) := by
  constructor
  · intro hr
    subst hr
    simp [spatialMatch]
  · intro hr
    have hrR : (0 : ℝ) ≤ (r : ℝ) := by exact_mod_cast le_of_lt hr
    rw [spatialMatch, if_neg hr.ne']
    rw [Real.sqrt_le_left hrR, Real.sqrt_le_left hrR]
    simp only [Bool.or_eq_true, Bool.and_eq_true, decide_eq_true_eq]
    constructor
    · rintro (h | ⟨h1, h2⟩)
      · left; exact_mod_cast h
      · right; exact ⟨by exact_mod_cast h1, by exact_mod_cast h2⟩
    · rintro (h | ⟨h1, h2⟩)
      · left; exact_mod_cast h
      · right; exact ⟨by exact_mod_cast h1, by exact_mod_cast h2⟩

/-- Claim C3 witness: the spec's own examples — exact mode at the stored
point `(1,2,3)` with `r = 0`, and tolerant mode for query `(0,0,0)` with
`r = 5` against the stored point `(3,0,0)`. -/
theorem c3_spatial_predicate_witness :
    ((0 : ℚ) = 0 ∧ (0 : ℚ) < 5) ∧
    (spatialMatch 1 2 3 1 2 3 0 = true ↔ ((1 : ℚ) = 1 ∧ (2 : ℚ) = 2 ∧ (3 : ℚ) = 3)) ∧
    (spatialMatch 0 0 0 3 0 0 5 = true ↔
      (Real.sqrt ((((3 : ℚ) : ℝ) - ((0 : ℚ) : ℝ)) ^ 2 + (((0 : ℚ) : ℝ) - ((0 : ℚ) : ℝ)) ^ 2 +
          (((0 : ℚ) : ℝ) - ((0 : ℚ) : ℝ)) ^ 2) ≤ ((5 : ℚ) : ℝ) ∨
       (Real.sqrt ((((3 : ℚ) : ℝ) - ((0 : ℚ) : ℝ)) ^ 2 +
          (((0 : ℚ) : ℝ) - ((0 : ℚ) : ℝ)) ^ 2) ≤ ((5 : ℚ) : ℝ) ∧
        |((0 : ℚ) : ℝ) - ((0 : ℚ) : ℝ)| ≤ ((5 : ℚ) : ℝ)))) :=
  ⟨⟨rfl, by norm_num⟩,
   (c3_spatial_predicate 1 2 3 1 2 3 0).1 rfl,
   (c3_spatial_predicate 0 0 0 3 0 0 5).2 (by norm_num)⟩

theorem dissoc_mem_iff (metas : List MetaRow) (annots : List AnnotRow)
    (ta_us ta_sp tb_us tb_sp : List Char) (s : Int) :
    (∃ r ∈ dissocTermSorted metas annots ta_us ta_sp tb_us tb_sp, r.1.study_id = s) ↔
    ((∃ m ∈ metas, m.study_id = s) ∧
     (∃ a ∈ annots, a.study_id = s ∧ termMatchQ ta_us ta_sp a.term = true) ∧
     ¬ ∃ b ∈ annots, b.study_id = s ∧ termMatchQ tb_us tb_sp b.term = true) := by
  have hperm := List.mergeSort_perm
    (dissocTermRows metas annots ta_us ta_sp tb_us tb_sp) dissocRowLE
  unfold dissocTermSorted
  constructor
  · rintro ⟨r, hr, rfl⟩
    rw [hperm.mem_iff] at hr
    simp only [dissocTermRows, List.mem_flatMap, List.mem_map, List.mem_filter] at hr
    obtain ⟨m, hm, a, ⟨ha, hcond⟩, heq⟩ := hr
    subst heq
    simp only [Bool.and_eq_true, beq_iff_eq, Bool.not_eq_true', decide_eq_true_eq] at hcond
    obtain ⟨⟨⟨hsid, hmatch⟩, _⟩, hnoB⟩ := hcond
    rw [List.any_eq_false] at hnoB
    refine ⟨⟨m, hm, rfl⟩, ⟨a, ha, hsid, hmatch⟩, ?_⟩
    rintro ⟨b, hb, hbsid, hbmatch⟩
    exact (hnoB b hb) (by simp [hbsid, hbmatch])
  · rintro ⟨⟨m, hm, hms⟩, ⟨a, ha, has, hmatch⟩, hnb⟩
    refine ⟨(m, a), ?_, hms⟩
    rw [hperm.mem_iff]
    simp only [dissocTermRows, List.mem_flatMap, List.mem_map, List.mem_filter]
    refine ⟨m, hm, a, ⟨ha, ?_⟩, rfl⟩
    simp only [Bool.and_eq_true, beq_iff_eq, Bool.not_eq_true', decide_eq_true_eq]
    refine ⟨⟨⟨by rw [has, hms], hmatch⟩, ?_⟩, ?_⟩
    · rw [List.any_eq_true]
      exact ⟨a, ha, by simp [has, hms, hmatch]⟩
    · rw [List.any_eq_false]
      intro b hb hpb
      simp only [Bool.and_eq_true, beq_iff_eq, decide_eq_true_eq] at hpb
      exact hnb ⟨b, hb, by rw [hpb.1, hms], hpb.2⟩

/-- Claim C2: a study appears among the rows of the term-dissociation
query result (the full ordered result the SQL denotes, before LIMIT and
OFFSET) exactly when it is a metadata study with at least one annotation
matching the A candidates and with zero annotations matching the B
candidates, the zero-match condition being evaluated across all of the
study's annotations. -/
theorem c2_dissociate_terms_exact (metas : List MetaRow) (annots : List AnnotRow)
    (rawA rawB : List Char) (s : Int) :
    (∃ r ∈ dissocTermSorted metas annots (normalizeTerm rawA).1 (normalizeTerm rawA).2
        (normalizeTerm rawB).1 (normalizeTerm rawB).2, r.1.study_id = s) ↔
    ((∃ m ∈ metas, m.study_id = s) ∧
     (∃ a ∈ annots, a.study_id = s ∧
        termMatchQ (normalizeTerm rawA).1 (normalizeTerm rawA).2 a.term = true) ∧
     ¬ ∃ b ∈ annots, b.study_id = s ∧
        termMatchQ (normalizeTerm rawB).1 (normalizeTerm rawB).2 b.term = true) :=
  dissoc_mem_iff metas annots _ _ _ _ s

end StudyApp

